import Mathlib

/-!
# wgetMirror: a shallow embedding of `cmd/wgetMirror.go`

The crawl core of the `wgetMirror` command is embedded as executable Lean
definitions, followed by theorems about them.

Conventions of the embedding:

* A Go `string` is a `GoString`, a list of characters.  Every pattern the program
  searches for (`":"`, `"."`, `"/"`, `"#"`) is a single ASCII character, and an ASCII
  byte never occurs inside a multi-byte UTF-8 sequence, so searching and replacing
  per character agrees with Go's per-byte search on UTF-8 text.
* A Go `map[string]bool` is a `GoMap`, a function to `Option Bool`: `none` is an
  absent key, `some v` a stored value.  Reading `m[k]` yields `false` for an absent key.
* Calls that leave the program (`url.Parse`, `URL.String`, `URL.ResolveReference`,
  `http.Get`, `os.Lstat`, `os.MkdirAll`, `os.ReadDir`, `os.Create`, `io.Copy`, the HTML
  parser) are parameters: the theorems hold for every behaviour of them.
* `download` spawns one goroutine per link and waits for all of them.  The embedding
  is the sequential schedule in which every goroutine runs to completion when it is
  spawned; recursion depth is bounded by a fuel argument.
-/

namespace WgetMirror

/-! ## Go strings and the `strings` / `filepath` functions the program calls -/

/-- A Go string. -/
abbrev GoString := List Char

namespace strings

/-- Go `strings.HasPrefix(s, pre)`. -/
def HasPrefix (s pre : GoString) : Bool := pre.isPrefixOf s

/-- Go `strings.HasSuffix(s, suffix)`. -/
def HasSuffix (s suffix : GoString) : Bool := suffix.isSuffixOf s

/-- Go `strings.TrimSuffix(s, suffix)`: `s` without the trailing `suffix`, or `s` itself
when it does not end in `suffix`. -/
def TrimSuffix (s suffix : GoString) : GoString :=
  if HasSuffix s suffix then s.take (s.length - suffix.length) else s

/-- Go `strings.Contains(s, substr)`: `substr` occurs at some position of `s`. -/
def Contains : GoString → GoString → Bool
  | [], substr => substr.isPrefixOf []
  | c :: rest, substr => substr.isPrefixOf (c :: rest) || Contains rest substr

/-- The replacement loop of Go `strings.Replace` for a non-empty `old`, scanning left to
right.  The counter is the number of characters of the occurrence just replaced that
are still to be stepped over; at counter `0` the next occurrence of `old` is looked for
at the current position. -/
def replaceFrom (old new : GoString) : Nat → GoString → GoString
  | _, [] => []
  | skip + 1, _ :: rest => replaceFrom old new skip rest
  | 0, c :: rest =>
      if old.isPrefixOf (c :: rest) then new ++ replaceFrom old new (old.length - 1) rest
      else c :: replaceFrom old new 0 rest

/-- Go `strings.ReplaceAll(s, old, new)`: every non-overlapping occurrence of `old`,
found left to right, is replaced by `new`.  An empty `old` matches before every
character and at the end. -/
def ReplaceAll (s old new : GoString) : GoString :=
  if old = [] then new ++ s.flatMap (fun c => c :: new) else replaceFrom old new 0 s

end strings

namespace filepath

/-- The backwards scan of Go `filepath.Ext` over the reversed name: the first argument
is what is still to be scanned (last character first), the second the characters
already passed, in their original order. -/
def extScan : List Char → GoString → GoString
  | [], _ => []
  | c :: rest, seen =>
      if c = '/' then []
      else if c = '.' then c :: seen
      else extScan rest (c :: seen)

/-- Go `filepath.Ext(path)` (Unix separator): the suffix of the last path element that
starts at its last `.`, or the empty string when there is no dot. -/
def Ext (path : GoString) : GoString := extScan path.reverse []

end filepath

/-! ## `net/url.URL` -/

/-- Go `url.Userinfo`. -/
structure Userinfo where
  username : GoString
  password : GoString
  passwordSet : Bool
  deriving DecidableEq, Repr

/-- Go `url.URL`, with all of its exported fields. -/
structure URL where
  Scheme : GoString
  Opaque : GoString
  User : Option Userinfo
  Host : GoString
  Path : GoString
  RawPath : GoString
  OmitHost : Bool
  ForceQuery : Bool
  RawQuery : GoString
  Fragment : GoString
  RawFragment : GoString
  deriving DecidableEq, Repr

/-- A URL that has only a scheme, a host and a path. -/
def URL.simple (scheme host path : GoString) : URL :=
  { Scheme := scheme, Opaque := [], User := none, Host := host, Path := path, RawPath := [],
    OmitHost := false, ForceQuery := false, RawQuery := [], Fragment := [], RawFragment := [] }

/-! ## The crawler -/

/-- Go `map[string]bool`. -/
abbrev GoMap := GoString → Option Bool

/-- The empty map, `make(map[string]bool)`. -/
def GoMap.empty : GoMap := fun _ => none

/-- The read `m[k]`: the stored value, `false` for an absent key. -/
def GoMap.read (m : GoMap) (k : GoString) : Bool := (m k).getD false

/-- The membership test `_, ok := m[k]`. -/
def GoMap.has (m : GoMap) (k : GoString) : Bool := (m k).isSome

/-- The assignment `m[k] = v`. -/
def GoMap.set (m : GoMap) (k : GoString) (v : Bool) : GoMap :=
  fun j => if j = k then some v else m j

/-- The `crawler` struct; the mutex has no content in the sequential embedding. -/
structure crawler where
  startURL : URL
  destDir : GoString
  visitedURLs : GoMap

/-- The method `crawler.isChildURL`. -/
def crawler.isChildURL (c : crawler) (u : URL) : Bool :=
  if u.Scheme != c.startURL.Scheme || u.Host != c.startURL.Host then
    false
  else
    strings.HasPrefix u.Path (c.startURL.Path ++ "/".toList) || u.Path == c.startURL.Path

/-- The method `crawler.normalizeFilename`. -/
def crawler.normalizeFilename (_c : crawler) (filename : GoString) : GoString :=
  let result := strings.ReplaceAll filename ":".toList "".toList
  let result := strings.ReplaceAll result ".".toList "_".toList
  strings.ReplaceAll result "/".toList "_".toList

/-- Lines 130-133 of `download`: under the mutex, read `visitedURLs[key]`, then store
`true` under `key`.  Returns the value read and the crawler with the updated map. -/
def crawler.testAndMark (c : crawler) (key : GoString) : Bool × crawler :=
  let visited := c.visitedURLs.read key
  (visited, { c with visitedURLs := c.visitedURLs.set key true })

/-- Lines 147-150 of `download`: the name of the file written for a normalized URL. -/
def destFileName (normalizedUrl : GoString) : GoString :=
  let filename := normalizedUrl
  if filename = "".toList then "index.html".toList else filename

/-! ## The parsed page -/

/-- Go `html.Attribute`. -/
structure Attribute where
  Namespace : GoString
  Key : GoString
  Val : GoString
  deriving DecidableEq, Repr

/-- An element node of a parsed document: its tag name and its attributes in source
order. -/
structure Node where
  Data : GoString
  Attr : List Attribute
  deriving DecidableEq, Repr

/-- The selection `doc.Find("a[href]").Nodes` over the elements of a document in
document order: the `a` elements that have an attribute whose key is `href`. -/
def findAnchors (doc : List Node) : List Node :=
  doc.filter (fun n => n.Data == "a".toList && n.Attr.any (fun a => a.Key == "href".toList))

/-- Line 179 of `download`, `href := link.Attr[0].Val`; `none` is the index-out-of-range
panic on an element without attributes. -/
def linkHref (link : Node) : Option GoString :=
  match link.Attr with
  | [] => none
  | a :: _ => some a.Val

/-- The value of the attribute named `href` of an element, when it has one. -/
def hrefAttr (n : Node) : Option GoString :=
  (n.Attr.find? (fun a => a.Key == "href".toList)).map (fun a => a.Val)

/-! ## The world outside the program -/

/-- What a successful `http.Get` leads to: whether `io.Copy` of the body succeeds, and
the elements of the document `goquery.NewDocumentFromReader` builds from it (`none` when
it reports `readerErr`). -/
structure Response where
  copyOk : Bool
  doc : Option (List Node)

/-- The library and network behaviour `download` depends on. -/
structure World where
  /-- Go `URL.String`. -/
  URLString : URL → GoString
  /-- Go `url.Parse`; `none` is a parse error. -/
  Parse : GoString → Option URL
  /-- The call `base.ResolveReference(ref)`. -/
  ResolveReference : URL → URL → URL
  /-- Go `http.Get`; `none` is a transport error. -/
  Get : GoString → Option Response
  /-- Whether `os.Create` of a new file of this name in the destination succeeds. -/
  Create : GoString → Bool

/-- Errors of the `os` package; `os.IsNotExist` holds of `ENOENT` only. -/
inductive OsError
  | ENOENT
  | EACCES
  | ENOTDIR
  | ENAMETOOLONG
  | ELOOP
  deriving DecidableEq, Repr

/-- Go `os.IsNotExist`. -/
def OsError.IsNotExist : OsError → Bool
  | .ENOENT => true
  | _ => false

/-- Go `fs.FileInfo`, reduced to what the program asks of it. -/
structure FileInfo where
  IsDir : Bool
  deriving DecidableEq, Repr

/-- The pair `os.Lstat` returns: a file info and a nil error, or a nil file info and an
error. -/
inductive LstatResult
  | ok (info : FileInfo)
  | fail (err : OsError)
  deriving DecidableEq, Repr

/-- The first component of the pair, `nil` on failure. -/
def LstatResult.info : LstatResult → Option FileInfo
  | .ok i => some i
  | .fail _ => none

/-- The second component of the pair, `nil` on success. -/
def LstatResult.err : LstatResult → Option OsError
  | .ok _ => none
  | .fail e => some e

/-- The file-system behaviour the start-up code depends on. -/
structure OS where
  /-- Go `os.Lstat`. -/
  Lstat : GoString → LstatResult
  /-- Go `os.MkdirAll(path, perm)`; `none` is success. -/
  MkdirAll : GoString → Nat → Option OsError
  /-- Go `os.ReadDir`: the names of the entries, or an error. -/
  ReadDir : GoString → Except OsError (List GoString)

/-- The entries of a directory as `os.ReadDir` lists them, none when it fails. -/
def OS.entries (os : OS) (path : GoString) : List GoString :=
  match os.ReadDir path with
  | .ok files => files
  | .error _ => []

/-- A call into the file system, as recorded in the log of a run. -/
inductive SysCall
  | Lstat (path : GoString)
  | MkdirAll (path : GoString) (perm : Nat)
  | ReadDir (path : GoString)
  deriving DecidableEq, Repr

/-- How a Go function call ends in the embedding. -/
inductive Outcome (α : Type)
  | returned (a : α)
  | panicked
  | outOfFuel
  deriving DecidableEq, Repr

/-! ## Start-up: argument validation and the resume loader -/

/-- The function `createDestinationDirectory`, with the log of its file-system calls.
`folderInfo.IsDir()` on a nil `folderInfo` is a nil dereference, which panics. -/
def createDestinationDirectory (os : OS) (destination : GoString) :
    List SysCall × Outcome Bool :=
  let r := os.Lstat destination
  let folderInfo := r.info
  let osErr := r.err
  if osErr.isSome && (osErr.map OsError.IsNotExist).getD false then
    let osErr := os.MkdirAll destination 0o755
    if osErr.isSome then
      ([.Lstat destination, .MkdirAll destination 0o755], .returned false)
    else
      ([.Lstat destination, .MkdirAll destination 0o755], .returned true)
  else
    match folderInfo with
    | none => ([.Lstat destination], .panicked)
    | some info => ([.Lstat destination], .returned info.IsDir)

/-- The function `readAndValidateArgs`, with the log of its file-system calls.  The Go
triple `(url, destination, err)` is an `Except`: the error message, or the URL and the
destination. -/
def readAndValidateArgs (w : World) (os : OS) (args : List GoString) :
    List SysCall × Outcome (Except String (URL × GoString)) :=
  match args with
  | [] | [_] =>
    ([], .returned (.error ("error: not enough arguments. Please provide a start URL and a " ++
      "destination directory - wgetMirror [startUrl] [destinationDirectory]")))
  | startURL :: destination :: _ =>
    match w.Parse startURL with
    | none => ([], .returned (.error "error: invalid start URL"))
    | some sUrl =>
      match createDestinationDirectory os destination with
      | (calls, .returned false) =>
        (calls, .returned (.error "error: invalid destination directory"))
      | (calls, .returned true) => (calls, .returned (.ok (sUrl, destination)))
      | (calls, .panicked) => (calls, .panicked)
      | (calls, .outOfFuel) => (calls, .outOfFuel)

/-- The file name without its extension, the key line 116 stores for a directory entry. -/
def fileStem (name : GoString) : GoString :=
  strings.TrimSuffix name (filepath.Ext name)

/-- The function `loadAlreadyVisitedFiles`, given what `os.ReadDir` returns. -/
def loadAlreadyVisitedFiles (os : OS) (destination : GoString) : Except OsError GoMap :=
  match os.ReadDir destination with
  | .error readErr => .error readErr
  | .ok files => .ok (files.foldl (fun visited file => visited.set (fileStem file) true) GoMap.empty)

/-- The function `newCrawler`; it never fails. -/
def newCrawler (url : URL) (destination : GoString) (visited : GoMap) : Except String crawler :=
  .ok { startURL := url, destDir := destination, visitedURLs := visited }

/-! ## `download` -/

/-- The errors `download` returns. -/
inductive DownloadError
  | getErr
  | osErr
  | ioErr
  | readerErr
  | linkErr (wgErr : DownloadError)
  deriving DecidableEq, Repr

/-- The state a crawl changes: the crawler (its visited map), the names of the entries
of the destination directory, and the URLs passed to `http.Get`, oldest first. -/
structure CrawlState where
  c : crawler
  entries : List GoString
  gets : List URL

/-- The key of a URL in the visited map, line 128. -/
def World.key (w : World) (c : crawler) (u : URL) : GoString :=
  c.normalizeFilename (w.URLString u)

/-- The loop over the links of a page, lines 178-204, with `dl` the recursive call of
`download`.  A goroutine that returns an error overwrites `err`. -/
def linksLoop (w : World) (dl : URL → CrawlState → CrawlState × Outcome (Option DownloadError))
    (url : URL) : List Node → Option DownloadError → CrawlState →
    CrawlState × Outcome (Option DownloadError)
  | [], err, st => (st, .returned err)
  | link :: rest, err, st =>
    match linkHref link with
    | none => (st, .panicked)
    | some href =>
      match w.Parse href with
      | none => linksLoop w dl url rest err st
      | some linkURL =>
        let absURL := w.ResolveReference url linkURL
        if !st.c.isChildURL absURL || strings.Contains (w.URLString absURL) "#".toList then
          linksLoop w dl url rest err st
        else
          match dl absURL st with
          | (st1, .returned none) => linksLoop w dl url rest err st1
          | (st1, .returned (some wgErr)) => linksLoop w dl url rest (some (.linkErr wgErr)) st1
          | (st1, .panicked) => (st1, .panicked)
          | (st1, .outOfFuel) => (st1, .outOfFuel)

/-- The method `crawler.download`, sequentially, with a bound on the recursion depth. -/
def download (w : World) : Nat → URL → CrawlState → CrawlState × Outcome (Option DownloadError)
  | 0, _, st => (st, .outOfFuel)
  | fuel + 1, url, st =>
    let normalizedUrl := st.c.normalizeFilename (w.URLString url)
    let (visited, c1) := st.c.testAndMark normalizedUrl
    let st := { st with c := c1 }
    if visited then (st, .returned none)
    else
      let st := { st with gets := st.gets ++ [url] }
      match w.Get (w.URLString url) with
      | none => (st, .returned (some .getErr))
      | some resp =>
        let filename := destFileName normalizedUrl
        if filename ∈ st.entries then (st, .returned none)
        else if !w.Create filename then (st, .returned (some .osErr))
        else
          let st := { st with entries := st.entries ++ [filename] }
          if !resp.copyOk then (st, .returned (some .ioErr))
          else
            match resp.doc with
            | none => (st, .returned (some .readerErr))
            | some doc => linksLoop w (download w fuel) url (findAnchors doc) none st

/-- What a run of the command leaves behind: the file-system calls made before the
crawl, the state of the crawl when `download` was reached, and how `RunE` ended. -/
structure RunResult where
  calls : List SysCall
  crawl : Option CrawlState
  outcome : Outcome (Option String)

/-- The `RunE` function of `wgetMirrorCmd`. -/
def RunE (w : World) (os : OS) (fuel : Nat) (args : List GoString) : RunResult :=
  match readAndValidateArgs w os args with
  | (calls, .panicked) => ⟨calls, none, .panicked⟩
  | (calls, .outOfFuel) => ⟨calls, none, .outOfFuel⟩
  | (calls, .returned (.error argsErr)) => ⟨calls, none, .returned (some ("error: " ++ argsErr))⟩
  | (calls, .returned (.ok (url, destination))) =>
    let calls := calls ++ [.ReadDir destination]
    match loadAlreadyVisitedFiles os destination with
    | .error _ => ⟨calls, none, .returned (some "error: could not load already visited files")⟩
    | .ok visited =>
      match newCrawler url destination visited with
      | .error _ => ⟨calls, none, .returned (some "error: could not create crawler")⟩
      | .ok crawler =>
        match download w fuel url ⟨crawler, os.entries destination, []⟩ with
        | (st, .returned none) => ⟨calls, some st, .returned none⟩
        | (st, .returned (some _)) =>
          ⟨calls, some st, .returned (some "error: could not download file")⟩
        | (st, .panicked) => ⟨calls, some st, .panicked⟩
        | (st, .outOfFuel) => ⟨calls, some st, .outOfFuel⟩

/-! ## The normalizer as the specification words it -/

/-- The normalizer in the words of the specification: every `:` is deleted, every `.`
and every `/` becomes `_`, every other character stays, in order. -/
def normalizeSpec (s : GoString) : GoString :=
  s.flatMap (fun ch => if ch = ':' then [] else if ch = '.' ∨ ch = '/' then ['_'] else [ch])

/-! ## Scenario fixtures -/

/-- Go `URL.String` on a URL without opaque part, user, query and fragment, whose host
and path need no escaping: the scheme and `:` when there is a scheme; `//` and the host
when there is a scheme or a host, and a host or a path; a `/` before a relative path that
follows a host; then the path.  The string of the empty URL is empty. -/
def plainURLString (u : URL) : GoString :=
  (if u.Scheme ≠ [] then u.Scheme ++ ":".toList else []) ++
  (if u.Scheme ≠ [] ∨ u.Host ≠ [] then
    (if u.Host ≠ [] ∨ u.Path ≠ [] then "//".toList else []) ++ u.Host
   else []) ++
  (if u.Path ≠ [] ∧ u.Path.head? ≠ some '/' ∧ u.Host ≠ [] then "/".toList else []) ++
  u.Path

/-- Go `url.Parse` on the hrefs of the scenarios (`b`, `../x`, `/a/b`, `/a`): a URL that
has only a path. -/
def pathOnlyParse (href : GoString) : Option URL :=
  some (URL.simple [] [] href)

/-- Go `ResolveReference` on the references of the scenarios: against base path `/a/`,
`b` resolves to `/a/b` and `../x` to `/x`; a reference with an absolute path replaces
the path of the base. -/
def scenarioResolve (base ref : URL) : URL :=
  if ref.Path = "b".toList then URL.simple base.Scheme base.Host (base.Path ++ "b".toList)
  else if ref.Path = "../x".toList then URL.simple base.Scheme base.Host "/x".toList
  else URL.simple base.Scheme base.Host ref.Path

/-- An `a` element with the given attributes, as key and value pairs. -/
def anchor (attrs : List (String × String)) : Node :=
  { Data := "a".toList,
    Attr := attrs.map (fun kv => { Namespace := [], Key := kv.1.toList, Val := kv.2.toList }) }

/-- A page that is fetched, copied and parsed without error. -/
def page (doc : List Node) : Option Response := some { copyOk := true, doc := some doc }

/-- The HTTP fixture of scenario S1: `/a/` serves links to `b` and to `../x`; the pages
`/a/b` and `/x` exist and have no links. -/
def worldS1 : World :=
  { URLString := plainURLString
    Parse := pathOnlyParse
    ResolveReference := scenarioResolve
    Get := fun s =>
      if s = "http://h/a/".toList then page [anchor [("href", "b")], anchor [("href", "../x")]]
      else if s = "http://h/a/b".toList then page []
      else if s = "http://h/x".toList then page []
      else none
    Create := fun _ => true }

/-- The start URL of scenario S1, `http://h/a/`. -/
def startS1 : URL := URL.simple "http".toList "h".toList "/a/".toList

/-- The crawler of scenario S1 on an empty destination directory. -/
def crawlerS1 : crawler := { startURL := startS1, destDir := "dest".toList, visitedURLs := GoMap.empty }

/-- The HTTP fixture of scenario S3: `/a` links to `/a/b`, which links back to `/a`. -/
def worldS3 : World :=
  { URLString := plainURLString
    Parse := pathOnlyParse
    ResolveReference := scenarioResolve
    Get := fun s =>
      if s = "http://h/a".toList then page [anchor [("href", "/a/b")]]
      else if s = "http://h/a/b".toList then page [anchor [("href", "/a")]]
      else none
    Create := fun _ => true }

/-- The start URL of scenarios S3 and S4, `http://h/a`. -/
def startS3 : URL := URL.simple "http".toList "h".toList "/a".toList

/-- The crawler of scenario S3 on an empty destination directory. -/
def crawlerS3 : crawler := { startURL := startS3, destDir := "dest".toList, visitedURLs := GoMap.empty }

/-- The HTTP fixture for link extraction: `/a` serves one anchor whose first attribute is
`class="/a/x"` and whose `href` is `/a/b`; both pages exist. -/
def worldAttr : World :=
  { URLString := plainURLString
    Parse := pathOnlyParse
    ResolveReference := scenarioResolve
    Get := fun s =>
      if s = "http://h/a".toList then page [anchor [("class", "/a/x"), ("href", "/a/b")]]
      else if s = "http://h/a/b".toList then page []
      else if s = "http://h/a/x".toList then page []
      else none
    Create := fun _ => true }

/-- A world in which `url.Parse` rejects `::::` (scenario S6). -/
def worldS6 : World :=
  { worldS3 with Parse := fun s => if s = "::::".toList then none else pathOnlyParse s }

/-- A file system in which the destination does not exist yet and can be created. -/
def osFresh : OS :=
  { Lstat := fun _ => .fail .ENOENT, MkdirAll := fun _ _ => none, ReadDir := fun _ => .ok [] }

/-- A file system in which `os.Lstat` of the destination is refused (permission denied
on a parent directory). -/
def osDenied : OS :=
  { Lstat := fun _ => .fail .EACCES, MkdirAll := fun _ _ => some .EACCES,
    ReadDir := fun _ => .error .EACCES }

/-- The crawler of scenario S4: the destination directory already holds a file named
`http__h_a_b`, and the visited map is the one the loader builds from that listing. -/
def crawlerS4 : crawler :=
  { crawlerS3 with
    visitedURLs := GoMap.empty.set (fileStem "http__h_a_b".toList) true }

/-- The page `http://h/a/b` of scenarios S3 and S4. -/
def pageABS3 : URL := URL.simple "http".toList "h".toList "/a/b".toList

/-- Every value stored in the map is `true`. -/
def GoMap.AllTrue (m : GoMap) : Prop := ∀ k v, m k = some v → v = true

/-- The relation between the state of a crawl before and after some calls of `download`
in world `w`: the URLs fetched in between have distinct keys, none of which read as
visited before and all of which read as visited after; keys visited stay visited; the
directory gained exactly one entry per file created, each named after a URL whose GET
succeeded;
and the file of every fetched URL is in the directory, provided its GET succeeded and the
file could be created. -/
def Extends (w : World) (st0 st : CrawlState) : Prop :=
  ∃ new : List URL, st.gets = st0.gets ++ new ∧
    (new.map (w.key st0.c)).Nodup ∧
    (∀ u ∈ new, st0.c.visitedURLs.read (w.key st0.c u) = false ∧
      st.c.visitedURLs.read (w.key st0.c u) = true) ∧
    (∀ k, st0.c.visitedURLs.read k = true → st.c.visitedURLs.read k = true) ∧
    (∃ added : List GoString, st.entries = st0.entries ++ added ∧
      ∀ name ∈ added, ∃ u ∈ new, (w.Get (w.URLString u)).isSome = true ∧
        name = destFileName (w.key st0.c u)) ∧
    (∀ u ∈ new, (w.Get (w.URLString u)).isSome = true →
      w.Create (destFileName (w.key st0.c u)) = true →
      destFileName (w.key st0.c u) ∈ st.entries)

/-! ## Lemmas on the string functions -/

theorem strings.replaceFrom_single (a : Char) (new s : GoString) :
    strings.replaceFrom [a] new 0 s = s.flatMap (fun ch => if ch = a then new else [ch]) := by
  induction s with
  | nil => rfl
  | cons ch rest ih =>
    by_cases h : ch = a
    · subst h
      simp [strings.replaceFrom, List.isPrefixOf, ih]
    · have h2 : ¬ a = ch := fun e => h e.symm
      simp [strings.replaceFrom, List.isPrefixOf, ih, h, h2]

theorem strings.ReplaceAll_single (a : Char) (new s : GoString) :
    strings.ReplaceAll s [a] new = s.flatMap (fun ch => if ch = a then new else [ch]) := by
  simp [strings.ReplaceAll, strings.replaceFrom_single]

theorem normalizeFilename_eq_spec (c : crawler) (s : GoString) :
    c.normalizeFilename s = normalizeSpec s := by
  have e1 : ":".toList = [':'] := rfl
  have e2 : ".".toList = ['.'] := rfl
  have e3 : "/".toList = ['/'] := rfl
  have e4 : "_".toList = ['_'] := rfl
  have e5 : "".toList = ([] : List Char) := rfl
  simp only [crawler.normalizeFilename, normalizeSpec, e1, e2, e3, e4, e5,
    strings.ReplaceAll_single, List.flatMap_assoc]
  congr 1
  funext ch
  by_cases h1 : ch = ':'
  · subst h1; simp
  · by_cases h2 : ch = '.'
    · subst h2; simp
    · by_cases h3 : ch = '/'
      · subst h3; simp
      · simp [h1, h2, h3]

theorem normalizeSpec_not_mem (s : GoString) (ch : Char)
    (h : ch = ':' ∨ ch = '.' ∨ ch = '/') : ch ∉ normalizeSpec s := by
  intro hm
  simp only [normalizeSpec, List.mem_flatMap] at hm
  obtain ⟨x, -, hx⟩ := hm
  by_cases h1 : x = ':'
  · simp [h1] at hx
  · by_cases h2 : x = '.' ∨ x = '/'
    · simp only [h1, h2, if_true, if_false, List.mem_singleton] at hx
      subst hx
      rcases h with h | h | h <;> exact absurd h (by decide)
    · simp only [h1, h2, if_false, List.mem_singleton] at hx
      subst hx
      rcases h with h | h | h
      · exact h1 h
      · exact h2 (Or.inl h)
      · exact h2 (Or.inr h)

theorem normalizeFilename_not_mem (c : crawler) (s : GoString) (ch : Char)
    (h : ch = ':' ∨ ch = '.' ∨ ch = '/') : ch ∉ c.normalizeFilename s := by
  rw [normalizeFilename_eq_spec]
  exact normalizeSpec_not_mem s ch h

/-! ## The visited map -/

theorem GoMap.allTrue_empty : GoMap.empty.AllTrue := by
  intro k v h
  simp [GoMap.empty] at h

theorem GoMap.allTrue_set (m : GoMap) (k : GoString) (h : m.AllTrue) :
    (m.set k true).AllTrue := by
  intro j v hj
  unfold GoMap.set at hj
  by_cases e : j = k
  · simp [e] at hj
    exact hj
  · simp [e] at hj
    exact h j v hj

theorem GoMap.read_eq_has (m : GoMap) (k : GoString) (h : m.AllTrue) : m.read k = m.has k := by
  unfold GoMap.read GoMap.has
  cases e : m k with
  | none => rfl
  | some v => simp [h k v e]

theorem GoMap.read_set_self (m : GoMap) (k : GoString) (v : Bool) : (m.set k v).read k = v := by
  simp [GoMap.read, GoMap.set]

theorem GoMap.read_set_true_mono (m : GoMap) (k j : GoString) (h : m.read j = true) :
    (m.set k true).read j = true := by
  unfold GoMap.read GoMap.set
  by_cases e : j = k
  · simp [e]
  · simpa [e, GoMap.read] using h

theorem foldl_set_allTrue (files : List GoString) (m : GoMap) (h : m.AllTrue) :
    (files.foldl (fun visited file => visited.set (fileStem file) true) m).AllTrue := by
  induction files generalizing m with
  | nil => exact h
  | cons f rest ih => exact ih _ (GoMap.allTrue_set m _ h)

theorem loadAlreadyVisitedFiles_allTrue (os : OS) (destination : GoString) (m : GoMap)
    (h : loadAlreadyVisitedFiles os destination = .ok m) : m.AllTrue := by
  unfold loadAlreadyVisitedFiles at h
  cases e : os.ReadDir destination with
  | error err => simp [e] at h
  | ok files =>
    simp only [e, Except.ok.injEq] at h
    rw [← h]
    exact foldl_set_allTrue files _ GoMap.allTrue_empty

theorem download_of_visited (w : World) (fuel : Nat) (url : URL) (st : CrawlState)
    (h : (st.c.testAndMark (w.key st.c url)).1 = true) :
    download w (fuel + 1) url st
      = (⟨(st.c.testAndMark (w.key st.c url)).2, st.entries, st.gets⟩, .returned none) := by
  simp only [crawler.testAndMark, World.key] at h
  simp [download, crawler.testAndMark, World.key, h]

/-! ## The crawl invariant -/

theorem World.key_crawler (w : World) (c d : crawler) (u : URL) : w.key c u = w.key d u := rfl

theorem Extends.refl (w : World) (st : CrawlState) : Extends w st st :=
  ⟨[], by simp, by simp, by simp, fun _ h => h, ⟨[], by simp, by simp⟩, by simp⟩

theorem Extends.trans {w : World} {st0 st1 st2 : CrawlState}
    (h1 : Extends w st0 st1) (h2 : Extends w st1 st2) : Extends w st0 st2 := by
  obtain ⟨n1, g1, nd1, v1, m1, ⟨a1, e1, f1⟩, p1⟩ := h1
  obtain ⟨n2, g2, nd2, v2, m2, ⟨a2, e2, f2⟩, p2⟩ := h2
  refine ⟨n1 ++ n2, ?_, ?_, ?_, ?_, ⟨a1 ++ a2, ?_, ?_⟩, ?_⟩
  · rw [g2, g1, List.append_assoc]
  · rw [List.map_append, List.nodup_append]
    refine ⟨nd1, nd2, ?_⟩
    intro k hk1 hk2
    obtain ⟨u, hu, hku⟩ := List.mem_map.mp hk1
    obtain ⟨v, hv, hkv⟩ := List.mem_map.mp hk2
    have t := (v1 u hu).2
    have f := (v2 v hv).1
    rw [hku] at t
    rw [World.key_crawler w st1.c st0.c, hkv, t] at f
    exact Bool.noConfusion f
  · intro u hu
    rcases List.mem_append.mp hu with hu | hu
    · exact ⟨(v1 u hu).1, m2 _ (v1 u hu).2⟩
    · refine ⟨?_, (v2 u hu).2⟩
      have f := (v2 u hu).1
      rw [World.key_crawler w st1.c st0.c] at f
      cases e : st0.c.visitedURLs.read (w.key st0.c u) with
      | false => rfl
      | true => rw [m1 _ e] at f; exact Bool.noConfusion f
  · intro k hk
    exact m2 k (m1 k hk)
  · rw [e2, e1, List.append_assoc]
  · intro name hn
    rcases List.mem_append.mp hn with hn | hn
    · obtain ⟨u, hu, hname⟩ := f1 name hn
      exact ⟨u, List.mem_append.mpr (Or.inl hu), hname⟩
    · obtain ⟨u, hu, hname⟩ := f2 name hn
      exact ⟨u, List.mem_append.mpr (Or.inr hu), hname⟩
  · intro u hu hget hcreate
    rcases List.mem_append.mp hu with hu | hu
    · rw [e2]
      exact List.mem_append.mpr (Or.inl (p1 u hu hget hcreate))
    · exact p2 u hu hget hcreate

theorem Extends.mark (w : World) (st : CrawlState) (k : GoString) (entries : List GoString)
    (gets : List URL) (he : entries = st.entries) (hg : gets = st.gets)
    (_h : st.c.visitedURLs.read k = true) :
    Extends w st ⟨{ st.c with visitedURLs := st.c.visitedURLs.set k true }, entries, gets⟩ := by
  subst he hg
  exact ⟨[], by simp, by simp, by simp,
    fun j hj => GoMap.read_set_true_mono _ _ _ hj, ⟨[], by simp, by simp⟩, by simp⟩

theorem Extends.fetch (w : World) (st : CrawlState) (url : URL)
    (h : st.c.visitedURLs.read (w.key st.c url) = false)
    (hw : w.Get (w.URLString url) = none ∨ destFileName (w.key st.c url) ∈ st.entries ∨
      w.Create (destFileName (w.key st.c url)) = false) :
    Extends w st ⟨{ st.c with visitedURLs := st.c.visitedURLs.set (w.key st.c url) true },
      st.entries, st.gets ++ [url]⟩ := by
  refine ⟨[url], rfl, by simp, ?_, fun j hj => GoMap.read_set_true_mono _ _ _ hj,
    ⟨[], by simp, by simp⟩, ?_⟩
  · intro u hu
    rw [List.mem_singleton] at hu
    subst hu
    exact ⟨h, GoMap.read_set_self _ _ _⟩
  · intro u hu hget hcreate
    rw [List.mem_singleton] at hu
    subst hu
    rcases hw with hw | hw | hw
    · rw [hw] at hget
      exact absurd hget (by simp)
    · exact hw
    · rw [hw] at hcreate
      exact absurd hcreate (by simp)

theorem Extends.write (w : World) (st : CrawlState) (url : URL)
    (h : st.c.visitedURLs.read (w.key st.c url) = false)
    (hget : (w.Get (w.URLString url)).isSome = true) :
    Extends w st ⟨{ st.c with visitedURLs := st.c.visitedURLs.set (w.key st.c url) true },
      st.entries ++ [destFileName (w.key st.c url)], st.gets ++ [url]⟩ := by
  refine ⟨[url], rfl, by simp, ?_, fun j hj => GoMap.read_set_true_mono _ _ _ hj,
    ⟨[destFileName (w.key st.c url)], rfl, ?_⟩, ?_⟩
  · intro u hu
    rw [List.mem_singleton] at hu
    subst hu
    exact ⟨h, GoMap.read_set_self _ _ _⟩
  · intro name hn
    rw [List.mem_singleton] at hn
    exact ⟨url, List.mem_singleton.mpr rfl, hget, hn⟩
  · intro u hu _ _
    rw [List.mem_singleton] at hu
    subst hu
    exact List.mem_append.mpr (Or.inr (List.mem_singleton.mpr rfl))

theorem linksLoop_extends (w : World)
    (dl : URL → CrawlState → CrawlState × Outcome (Option DownloadError)) (url : URL)
    (hdl : ∀ u st, Extends w st (dl u st).1) :
    ∀ (nodes : List Node) (err : Option DownloadError) (st : CrawlState),
      Extends w st (linksLoop w dl url nodes err st).1 := by
  intro nodes
  induction nodes with
  | nil => intro err st; exact Extends.refl w st
  | cons link rest ih =>
    intro err st
    simp only [linksLoop]
    split
    · exact Extends.refl w st
    · split
      · exact ih _ _
      · split
        · exact ih _ _
        · have hd := hdl (w.ResolveReference url ‹URL›) st
          split <;> rename_i heq <;> rw [heq] at hd
          · exact hd.trans (ih _ _)
          · exact hd.trans (ih _ _)
          · exact hd
          · exact hd

theorem download_extends (w : World) :
    ∀ (fuel : Nat) (url : URL) (st : CrawlState), Extends w st (download w fuel url st).1 := by
  intro fuel
  induction fuel with
  | zero => intro url st; exact Extends.refl w st
  | succ fuel ih =>
    intro url st
    cases hv : st.c.visitedURLs.read (w.key st.c url) with
    | true =>
      rw [download_of_visited w fuel url st (by simpa [crawler.testAndMark] using hv)]
      exact Extends.mark w st _ _ _ rfl rfl hv
    | false =>
      have hv2 : st.c.visitedURLs.read (st.c.normalizeFilename (w.URLString url)) = false := hv
      simp only [download, crawler.testAndMark, hv2, Bool.false_eq_true, if_false]
      split
      · rename_i hget
        exact Extends.fetch w st url hv (Or.inl hget)
      · rename_i resp hresp
        have hsome : (w.Get (w.URLString url)).isSome = true := by rw [hresp]; rfl
        split
        · rename_i hmem
          exact Extends.fetch w st url hv (Or.inr (Or.inl hmem))
        · split
          · rename_i hcreate
            exact Extends.fetch w st url hv (Or.inr (Or.inr (by simpa using hcreate)))
          · split
            · exact Extends.write w st url hv hsome
            · split
              · exact Extends.write w st url hv hsome
              · exact (Extends.write w st url hv hsome).trans
                  (linksLoop_extends w _ url (ih) _ _ _)

theorem linksLoop_gets (w : World)
    (dl : URL → CrawlState → CrawlState × Outcome (Option DownloadError)) (url : URL)
    (hdl : ∀ u st, Extends w st (dl u st).1)
    (nodes : List Node) (err : Option DownloadError) (st : CrawlState) :
    ∃ rest, (linksLoop w dl url nodes err st).1.gets = st.gets ++ rest := by
  obtain ⟨new, hg, -⟩ := linksLoop_extends w dl url hdl nodes err st
  exact ⟨new, hg⟩

theorem download_of_not_visited (w : World) (fuel : Nat) (url : URL) (st : CrawlState)
    (h : (st.c.testAndMark (w.key st.c url)).1 = false) :
    ∃ rest, (download w (fuel + 1) url st).1.gets = st.gets ++ url :: rest := by
  have hv : st.c.visitedURLs.read (st.c.normalizeFilename (w.URLString url)) = false := by
    simpa [crawler.testAndMark, World.key] using h
  simp only [download, crawler.testAndMark, hv, Bool.false_eq_true, if_false]
  split
  · exact ⟨[], rfl⟩
  · split
    · exact ⟨[], rfl⟩
    · split
      · exact ⟨[], rfl⟩
      · split
        · exact ⟨[], rfl⟩
        · split
          · exact ⟨[], rfl⟩
          · obtain ⟨rest, hr⟩ := linksLoop_gets w (download w fuel) url
              (download_extends w fuel) (findAnchors ‹List Node›) none
              ⟨{ st.c with visitedURLs :=
                    st.c.visitedURLs.set (st.c.normalizeFilename (w.URLString url)) true },
                st.entries ++ [destFileName (st.c.normalizeFilename (w.URLString url))],
                st.gets ++ [url]⟩
            refine ⟨rest, ?_⟩
            rw [hr]
            simp

/-! ## Fuel -/

theorem linksLoop_congr (w : World)
    (dl dl2 : URL → CrawlState → CrawlState × Outcome (Option DownloadError)) (url : URL)
    (hdl : ∀ u st, (dl u st).2 ≠ .outOfFuel → dl2 u st = dl u st) :
    ∀ (nodes : List Node) (err : Option DownloadError) (st : CrawlState),
      (linksLoop w dl url nodes err st).2 ≠ .outOfFuel →
      linksLoop w dl2 url nodes err st = linksLoop w dl url nodes err st := by
  intro nodes
  induction nodes with
  | nil => intro err st _; rfl
  | cons link rest ih =>
    intro err st
    simp only [linksLoop]
    split
    · intro _; rfl
    · split
      · exact ih _ _
      · split
        · exact ih _ _
        · rename_i linkURL _ _
          have hd := hdl (w.ResolveReference url linkURL) st
          cases hr : dl (w.ResolveReference url linkURL) st with
          | mk st1 out =>
            rw [hr] at hd
            cases out with
            | returned e =>
              rw [hd (by simp)]
              cases e with
              | none => exact ih _ _
              | some wgErr => exact ih _ _
            | panicked =>
              rw [hd (by simp)]
              intro _; rfl
            | outOfFuel =>
              intro h
              exact absurd rfl h

theorem download_fuel_succ (w : World) :
    ∀ (fuel : Nat) (url : URL) (st : CrawlState),
      (download w fuel url st).2 ≠ .outOfFuel →
      download w (fuel + 1) url st = download w fuel url st := by
  intro fuel
  induction fuel with
  | zero => intro url st h; exact absurd rfl h
  | succ fuel ih =>
    intro url st
    rw [download, download]
    simp only []
    split
    · intro _; rfl
    · split
      · intro _; rfl
      · split
        · intro _; rfl
        · split
          · intro _; rfl
          · split
            · intro _; rfl
            · split
              · intro _; rfl
              · exact linksLoop_congr w _ _ url ih _ _ _

theorem download_fuel_add (w : World) (fuel : Nat) (url : URL) (st : CrawlState)
    (h : (download w fuel url st).2 ≠ .outOfFuel) (extra : Nat) :
    download w (fuel + extra) url st = download w fuel url st := by
  induction extra with
  | zero => rfl
  | succ n ih =>
    rw [← Nat.add_assoc, download_fuel_succ w (fuel + n) url st (by rw [ih]; exact h), ih]

/-! ## File names and the resume loader -/

theorem filepath.extScan_no_dot (l seen : GoString) (h : '.' ∉ l) :
    filepath.extScan l seen = [] := by
  induction l generalizing seen with
  | nil => rfl
  | cons ch rest ih =>
    have h1 : ch ≠ '.' := fun e => h (by simp [e])
    have h2 : '.' ∉ rest := fun m => h (List.mem_cons_of_mem _ m)
    by_cases hs : ch = '/'
    · simp [filepath.extScan, hs]
    · simp [filepath.extScan, hs, h1, ih _ h2]

theorem filepath.Ext_no_dot (name : GoString) (h : '.' ∉ name) : filepath.Ext name = [] := by
  unfold filepath.Ext
  exact filepath.extScan_no_dot _ _ (by simpa using h)

theorem fileStem_no_dot (name : GoString) (h : '.' ∉ name) : fileStem name = name := by
  simp [fileStem, filepath.Ext_no_dot name h, strings.TrimSuffix]

theorem fileStem_normalizeFilename (c : crawler) (s : GoString) :
    fileStem (c.normalizeFilename s) = c.normalizeFilename s :=
  fileStem_no_dot _ (normalizeFilename_not_mem c s '.' (Or.inr (Or.inl rfl)))

theorem destFileName_of_ne_nil (k : GoString) (h : k ≠ []) : destFileName k = k := by
  have e : "".toList = ([] : List Char) := rfl
  simp [destFileName, e, h]

theorem normalizeFilename_ne_nil_of_http (c : crawler) (rest : GoString) :
    c.normalizeFilename ("http".toList ++ rest) ≠ [] := by
  rw [normalizeFilename_eq_spec]
  have e : "http".toList = ['h', 't', 't', 'p'] := rfl
  simp [normalizeSpec, e]

theorem foldl_set_of_mem (k : GoString) (files : List GoString) (m : GoMap)
    (h : (∃ f ∈ files, fileStem f = k) ∨ m k = some true) :
    (files.foldl (fun visited file => visited.set (fileStem file) true) m) k = some true := by
  induction files generalizing m with
  | nil =>
    rcases h with ⟨f, hf, _⟩ | h
    · simp at hf
    · exact h
  | cons g rest ih =>
    apply ih
    rcases h with ⟨f, hf, hk⟩ | h
    · rcases List.mem_cons.mp hf with e | hm
      · right
        subst e
        simp [GoMap.set, hk]
      · exact Or.inl ⟨f, hm, hk⟩
    · right
      unfold GoMap.set
      by_cases e : k = fileStem g
      · simp [e]
      · simp [e, h]

theorem loadAlreadyVisitedFiles_of_mem (os : OS) (destination : GoString)
    (files : List GoString) (name : GoString)
    (hr : os.ReadDir destination = .ok files) (hn : name ∈ files) :
    ∃ m, loadAlreadyVisitedFiles os destination = .ok m ∧ m (fileStem name) = some true := by
  refine ⟨files.foldl (fun visited file => visited.set (fileStem file) true) GoMap.empty,
    by simp only [loadAlreadyVisitedFiles, hr], ?_⟩
  exact foldl_set_of_mem _ files _ (Or.inl ⟨name, hn, rfl⟩)

theorem normalizeSpec_eq_nil_iff (s : GoString) :
    normalizeSpec s = [] ↔ ∀ ch ∈ s, ch = ':' := by
  induction s with
  | nil => simp [normalizeSpec]
  | cons a rest ih =>
    have hcons : normalizeSpec (a :: rest)
        = (if a = ':' then [] else if a = '.' ∨ a = '/' then ['_'] else [a])
            ++ normalizeSpec rest := by
      simp [normalizeSpec]
    rw [hcons, List.append_eq_nil, ih]
    by_cases ha : a = ':'
    · simp [ha]
    · by_cases hb : a = '.' ∨ a = '/'
      · simp [ha, hb]
      · simp [ha, hb]

theorem normalizeFilename_eq_nil_iff (c : crawler) (s : GoString) :
    c.normalizeFilename s = [] ↔ ∀ ch ∈ s, ch = ':' := by
  rw [normalizeFilename_eq_spec]
  exact normalizeSpec_eq_nil_iff s

theorem worldS3_get_colons (s : GoString) (hs : ∀ ch ∈ s, ch = ':') : worldS3.Get s = none := by
  have h1 : s ≠ "http://h/a".toList := by
    intro e
    subst e
    exact absurd (hs 'h' (by decide)) (by decide)
  have h2 : s ≠ "http://h/a/b".toList := by
    intro e
    subst e
    exact absurd (hs 'h' (by decide)) (by decide)
  show (if s = "http://h/a".toList then page [anchor [("href", "/a/b")]]
    else if s = "http://h/a/b".toList then page [anchor [("href", "/a")]] else none) = none
  rw [if_neg h1, if_neg h2]

/-- C4: in a world whose `http.Get` fails on every string made of `:` only (Go's
`http.Get` rejects a string without a scheme, the empty string included), for every crawl:
every file the crawl adds to the destination directory is named exactly the normalized
string of a URL it fetched, that name has no extension, and the stem the loader derives
from it is that key again; and for every URL fetched with success the file name
`download` uses is its key, the file is in the directory after the crawl when it could be
created, and the loader run on any listing that holds the file marks the key visited. -/
theorem download_file_name_is_key (w : World) (c : crawler) (entries : List GoString)
    (fuel : Nat) (start : URL)
    (hget : ∀ s : GoString, (∀ ch ∈ s, ch = ':') → w.Get s = none) :
    (∃ added : List GoString,
      (download w fuel start ⟨c, entries, []⟩).1.entries = entries ++ added ∧
      ∀ name ∈ added, ∃ u ∈ (download w fuel start ⟨c, entries, []⟩).1.gets,
        name = c.normalizeFilename (w.URLString u) ∧
        filepath.Ext name = [] ∧
        fileStem name = c.normalizeFilename (w.URLString u)) ∧
    (∀ u ∈ (download w fuel start ⟨c, entries, []⟩).1.gets,
      (w.Get (w.URLString u)).isSome = true →
        destFileName (c.normalizeFilename (w.URLString u))
          = c.normalizeFilename (w.URLString u) ∧
        fileStem (destFileName (c.normalizeFilename (w.URLString u)))
          = c.normalizeFilename (w.URLString u) ∧
        (w.Create (c.normalizeFilename (w.URLString u)) = true →
          c.normalizeFilename (w.URLString u)
            ∈ (download w fuel start ⟨c, entries, []⟩).1.entries) ∧
        (∀ (os : OS) (destination : GoString) (files : List GoString),
          os.ReadDir destination = .ok files →
          destFileName (c.normalizeFilename (w.URLString u)) ∈ files →
          ∃ m, loadAlreadyVisitedFiles os destination = .ok m ∧
            m (c.normalizeFilename (w.URLString u)) = some true ∧
            m.read (c.normalizeFilename (w.URLString u)) = true)) := by
  have hkey : ∀ u : URL, (w.Get (w.URLString u)).isSome = true →
      destFileName (c.normalizeFilename (w.URLString u))
        = c.normalizeFilename (w.URLString u) := by
    intro u hsome
    apply destFileName_of_ne_nil
    intro hnil
    have hnone := hget _ ((normalizeFilename_eq_nil_iff c _).mp hnil)
    rw [hnone] at hsome
    exact absurd hsome (by simp)
  obtain ⟨new, hg, -, -, -, ⟨added, he, hf⟩, hp⟩ :=
    download_extends w fuel start ⟨c, entries, []⟩
  have hnew : (download w fuel start ⟨c, entries, []⟩).1.gets = new := by
    rw [hg]
    simp
  refine ⟨⟨added, he, ?_⟩, ?_⟩
  · intro name hn
    obtain ⟨u, hu, hsome, hname⟩ := hf name hn
    have hk := hkey u hsome
    have hname2 : name = c.normalizeFilename (w.URLString u) := by
      rw [hname]
      exact hk
    refine ⟨u, by rw [hnew]; exact hu, hname2, ?_, ?_⟩
    · rw [hname2]
      exact filepath.Ext_no_dot _ (normalizeFilename_not_mem c _ '.' (Or.inr (Or.inl rfl)))
    · rw [hname2]
      exact fileStem_normalizeFilename c _
  · intro u hu hsome
    rw [hnew] at hu
    have hd := hkey u hsome
    have hs := fileStem_normalizeFilename c (w.URLString u)
    refine ⟨hd, by rw [hd, hs], ?_, ?_⟩
    · intro hcreate
      have := hp u hu hsome (by simpa [World.key, hd] using hcreate)
      simpa [World.key, hd] using this
    · intro os destination files hr hn
      rw [hd] at hn
      obtain ⟨m, hm, hv⟩ := loadAlreadyVisitedFiles_of_mem os destination files _ hr hn
      rw [hs] at hv
      exact ⟨m, hm, hv, by simp [GoMap.read, hv]⟩

/-- Witness for C4: the crawl of scenario S3, whose `http.Get` serves two `http` URLs
only; it leaves the files `http__h_a` and `http__h_a_b`, the keys of the two pages. -/
theorem download_file_name_is_key_witness :
    (∀ s : GoString, (∀ ch ∈ s, ch = ':') → worldS3.Get s = none) ∧
    (download worldS3 3 startS3 ⟨crawlerS3, [], []⟩).1.entries
      = ["http__h_a".toList, "http__h_a_b".toList] ∧
    (destFileName (crawlerS3.normalizeFilename (worldS3.URLString pageABS3))
        = crawlerS3.normalizeFilename (worldS3.URLString pageABS3) ∧
      fileStem (destFileName (crawlerS3.normalizeFilename (worldS3.URLString pageABS3)))
        = crawlerS3.normalizeFilename (worldS3.URLString pageABS3)) :=
  ⟨worldS3_get_colons, by decide,
   ((download_file_name_is_key worldS3 crawlerS3 [] 3 startS3 worldS3_get_colons).2
      pageABS3 (by decide) (by decide)).1,
   ((download_file_name_is_key worldS3 crawlerS3 [] 3 startS3 worldS3_get_colons).2
      pageABS3 (by decide) (by decide)).2.1⟩

/-! ## The test-and-mark step -/

/-- C5: for every visited map of the program, which stores only `true` (the loader
builds such a map and the step keeps it so), and every key: the value the step branches
on is the membership of the key before the step; after the step the key is stored with
`true`; every key stored before is stored after with the same value, and the map still
stores only `true`; `download` returns at once, without a GET, when the value is `true`,
and issues the GET of the URL next when it is `false`. -/
theorem testAndMark_reads_membership_and_grows (c : crawler) (k : GoString)
    (h : c.visitedURLs.AllTrue) :
    (c.testAndMark k).1 = c.visitedURLs.has k ∧
    (c.testAndMark k).2.visitedURLs k = some true ∧
    (∀ j v, c.visitedURLs j = some v → (c.testAndMark k).2.visitedURLs j = some v) ∧
    (c.testAndMark k).2.visitedURLs.AllTrue ∧
    (∀ (w : World) (fuel : Nat) (url : URL) (entries : List GoString) (gets : List URL),
      w.key c url = k →
      ((c.testAndMark k).1 = true →
        download w (fuel + 1) url ⟨c, entries, gets⟩
          = (⟨(c.testAndMark k).2, entries, gets⟩, .returned none)) ∧
      ((c.testAndMark k).1 = false →
        ∃ rest, (download w (fuel + 1) url ⟨c, entries, gets⟩).1.gets
          = gets ++ url :: rest)) := by
  refine ⟨GoMap.read_eq_has _ k h, by simp [crawler.testAndMark, GoMap.set], ?_,
    GoMap.allTrue_set _ k h, ?_⟩
  · intro j v hj
    simp only [crawler.testAndMark, GoMap.set]
    by_cases e : j = k
    · subst e
      simp [h j v hj]
    · simp [e, hj]
  · intro w fuel url entries gets hkey
    subst hkey
    constructor
    · intro hv
      exact download_of_visited w fuel url ⟨c, entries, gets⟩ hv
    · intro hv
      exact download_of_not_visited w fuel url ⟨c, entries, gets⟩ hv

/-- Witness for C5: the map the loader builds from a directory that holds the file
`http__h_a_b`, at that key, which is a member and is branched on as visited, and at the key
of `http://h/a`, which is absent and is branched on as not visited. -/
theorem testAndMark_reads_membership_and_grows_witness :
    crawlerS4.visitedURLs.AllTrue ∧
    crawlerS4.visitedURLs.has "http__h_a_b".toList = true ∧
    (crawlerS4.testAndMark "http__h_a_b".toList).1 = true ∧
    (crawlerS4.testAndMark "http__h_a_b".toList).1
      = crawlerS4.visitedURLs.has "http__h_a_b".toList ∧
    crawlerS4.visitedURLs.has "http__h_a".toList = false ∧
    (crawlerS4.testAndMark "http__h_a".toList).1
      = crawlerS4.visitedURLs.has "http__h_a".toList ∧
    (crawlerS4.testAndMark "http__h_a".toList).2.visitedURLs "http__h_a".toList = some true ∧
    (crawlerS4.testAndMark "http__h_a".toList).2.visitedURLs "http__h_a_b".toList
      = some true :=
  ⟨GoMap.allTrue_set _ _ GoMap.allTrue_empty, by decide, by decide,
   (testAndMark_reads_membership_and_grows crawlerS4 "http__h_a_b".toList
      (GoMap.allTrue_set _ _ GoMap.allTrue_empty)).1,
   by decide,
   (testAndMark_reads_membership_and_grows crawlerS4 "http__h_a".toList
      (GoMap.allTrue_set _ _ GoMap.allTrue_empty)).1,
   (testAndMark_reads_membership_and_grows crawlerS4 "http__h_a".toList
      (GoMap.allTrue_set _ _ GoMap.allTrue_empty)).2.1,
   (testAndMark_reads_membership_and_grows crawlerS4 "http__h_a".toList
      (GoMap.allTrue_set _ _ GoMap.allTrue_empty)).2.2.1 _ _ (by decide)⟩

/-! ## At-most-once fetch -/

/-- C6: in the sequential crawl, for every world, crawler (start URL and initial visited
map), directory content, fuel and URL to start from, the keys of the URLs passed to
`http.Get` are pairwise distinct and none of them read as visited in the initial map. In
scenario S3 (`/a` links to `/a/b`, which links back to `/a`) the crawl returns, for every
fuel from 3 on, after exactly the two GETs of `/a` and `/a/b`; in scenario S4 (the file of
`/a/b` already in the directory and loaded as visited) it returns after the single GET of
`/a`. -/
theorem download_fetches_each_key_at_most_once (w : World) (c : crawler)
    (entries : List GoString) (fuel : Nat) (start : URL) :
    ((download w fuel start ⟨c, entries, []⟩).1.gets.map
        (fun u => c.normalizeFilename (w.URLString u))).Nodup ∧
    (∀ u ∈ (download w fuel start ⟨c, entries, []⟩).1.gets,
      c.visitedURLs.read (c.normalizeFilename (w.URLString u)) = false) ∧
    (∀ extra : Nat,
      (download worldS3 (3 + extra) startS3 ⟨crawlerS3, [], []⟩).1.gets = [startS3, pageABS3] ∧
      (download worldS3 (3 + extra) startS3 ⟨crawlerS3, [], []⟩).2 = .returned none ∧
      (download worldS3 (3 + extra) startS3 ⟨crawlerS3, [], []⟩).1.gets.length = 2) ∧
    (∀ extra : Nat,
      (download worldS3 (3 + extra) startS3 ⟨crawlerS4, ["http__h_a_b".toList], []⟩).1.gets
        = [startS3] ∧
      (download worldS3 (3 + extra) startS3 ⟨crawlerS4, ["http__h_a_b".toList], []⟩).2
        = .returned none) := by
  obtain ⟨new, hg, hnd, hv, -, -, -⟩ := download_extends w fuel start ⟨c, entries, []⟩
  have hnew : (download w fuel start ⟨c, entries, []⟩).1.gets = new := by
    rw [hg]
    simp
  refine ⟨?_, ?_, ?_, ?_⟩
  · rw [hnew]
    exact hnd
  · intro u hu
    rw [hnew] at hu
    exact (hv u hu).1
  · intro extra
    rw [download_fuel_add worldS3 3 startS3 ⟨crawlerS3, [], []⟩ (by decide) extra]
    decide
  · intro extra
    rw [download_fuel_add worldS3 3 startS3 ⟨crawlerS4, ["http__h_a_b".toList], []⟩
      (by decide) extra]
    decide

/-! ## The normalizer -/

/-- C2: `normalizeFilename` deletes every `:` and replaces every `.` and every `/` by
`_`, keeping all other characters in order; its result contains none of `:`, `.`, `/`. -/
theorem normalizeFilename_deletes_and_replaces (c : crawler) (s : GoString) :
    c.normalizeFilename s = normalizeSpec s ∧
      ':' ∉ c.normalizeFilename s ∧ '.' ∉ c.normalizeFilename s ∧
      '/' ∉ c.normalizeFilename s :=
  ⟨normalizeFilename_eq_spec c s,
   normalizeFilename_not_mem c s ':' (Or.inl rfl),
   normalizeFilename_not_mem c s '.' (Or.inr (Or.inl rfl)),
   normalizeFilename_not_mem c s '/' (Or.inr (Or.inr rfl))⟩

/-- C9, as the claim states it, fails: the normalized name of `http://h/a/` is not
`http_h_a_`. -/
theorem normalizeFilename_S1_not_single_underscore :
    ¬ (crawlerS1.normalizeFilename "http://h/a/".toList = "http_h_a_".toList ∧
       crawlerS1.normalizeFilename "http://h/a/b".toList = "http_h_a_b".toList) := by
  decide

/-- C9, amended: the normalized names of the two pages of scenario S1 are `http__h_a_`
and `http__h_a_b` (each `/` of `//` becomes its own `_`), these are the file names
`download` computes for them, and a crawl from either URL leaves the file of that URL in
the destination directory. -/
theorem normalizeFilename_S1_names (c : crawler) :
    c.normalizeFilename "http://h/a/".toList = "http__h_a_".toList ∧
    c.normalizeFilename "http://h/a/b".toList = "http__h_a_b".toList ∧
    destFileName (c.normalizeFilename "http://h/a/".toList) = "http__h_a_".toList ∧
    destFileName (c.normalizeFilename "http://h/a/b".toList) = "http__h_a_b".toList ∧
    "http__h_a_".toList ∈ (download worldS1 3 startS1 ⟨crawlerS1, [], []⟩).1.entries ∧
    "http__h_a_b".toList ∈
      (download worldS1 3 (URL.simple "http".toList "h".toList "/a/b".toList)
        ⟨crawlerS1, [], []⟩).1.entries := by
  refine ⟨?_, ?_, ?_, ?_, ?_, ?_⟩
  · exact (by decide : crawlerS1.normalizeFilename "http://h/a/".toList = "http__h_a_".toList)
  · exact (by decide :
      crawlerS1.normalizeFilename "http://h/a/b".toList = "http__h_a_b".toList)
  · exact (by decide :
      destFileName (crawlerS1.normalizeFilename "http://h/a/".toList) = "http__h_a_".toList)
  · exact (by decide :
      destFileName (crawlerS1.normalizeFilename "http://h/a/b".toList) = "http__h_a_b".toList)
  · decide
  · decide

/-! ## Scenario S1 and the scope predicate -/

/-- C3, evaluated: with start URL `http://h/a/` the scope predicate rejects `http://h/x`,
and it also rejects `http://h/a/b`, because `/a/b` does not begin with `/a//`; the crawl of
scenario S1 issues a single GET, for the start page. -/
theorem isChildURL_S1_rejects_child :
    crawlerS1.isChildURL (URL.simple "http".toList "h".toList "/x".toList) = false ∧
    crawlerS1.isChildURL (URL.simple "http".toList "h".toList "/a/b".toList) = false ∧
    (download worldS1 3 startS1 ⟨crawlerS1, [], []⟩).1.gets = [startS1] ∧
    (download worldS1 3 startS1 ⟨crawlerS1, [], []⟩).2 = .returned none := by
  decide

/-! ## Link extraction -/

/-- C7, evaluated: on the anchor `<a class="/a/x" href="/a/b">`, which `a[href]` selects,
the string `download` parses is `/a/x`, the value of the first attribute, not the value
`/a/b` of the `href` attribute; the crawl fetches `http://h/a/x` and never `http://h/a/b`. -/
theorem linkHref_takes_first_attribute :
    findAnchors [anchor [("class", "/a/x"), ("href", "/a/b")]]
      = [anchor [("class", "/a/x"), ("href", "/a/b")]] ∧
    linkHref (anchor [("class", "/a/x"), ("href", "/a/b")]) = some "/a/x".toList ∧
    hrefAttr (anchor [("class", "/a/x"), ("href", "/a/b")]) = some "/a/b".toList ∧
    (download worldAttr 3 startS3 ⟨crawlerS3, [], []⟩).1.gets
      = [startS3, URL.simple "http".toList "h".toList "/a/x".toList] := by
  decide

/-! ## Start-up -/

theorem createDestinationDirectory_cases (os : OS) (destination : GoString) :
    (createDestinationDirectory os destination).2 =
      match os.Lstat destination with
      | .ok info => .returned info.IsDir
      | .fail .ENOENT => .returned (os.MkdirAll destination 0o755).isNone
      | .fail _ => .panicked := by
  unfold createDestinationDirectory
  cases h : os.Lstat destination with
  | ok info => simp [LstatResult.info, LstatResult.err]
  | fail e =>
    cases e <;> simp [LstatResult.info, LstatResult.err, OsError.IsNotExist]
    cases os.MkdirAll destination 0o755 <;> simp

/-- C10, evaluated: when `os.Lstat` of the destination fails with an error other than
not-exist, `createDestinationDirectory` does not return a boolean: it calls `IsDir` on
the nil file info and panics, and so do `readAndValidateArgs` and `RunE`, which never
produce the error `error: invalid destination directory`. -/
theorem createDestinationDirectory_panics_on_lstat_error :
    createDestinationDirectory osDenied "dest".toList
      = ([.Lstat "dest".toList], .panicked) ∧
    readAndValidateArgs worldS3 osDenied ["http://h/a".toList, "dest".toList]
      = ([.Lstat "dest".toList], .panicked) ∧
    (RunE worldS3 osDenied 3 ["http://h/a".toList, "dest".toList]).outcome = .panicked :=
  ⟨rfl, rfl, rfl⟩

/-- C8: an argument list with fewer than two elements, or whose first element
`url.Parse` rejects, makes `readAndValidateArgs` return an error without any file-system
call, and makes `RunE` return an error with no file-system call and no crawl (no GET, no
file written). -/
theorem readAndValidateArgs_rejects_before_effects (w : World) (os : OS) (fuel : Nat)
    (args : List GoString)
    (h : args.length < 2 ∨ ∃ a rest, args = a :: rest ∧ w.Parse a = none) :
    ∃ msg : String,
      readAndValidateArgs w os args = ([], .returned (.error msg)) ∧
      (RunE w os fuel args).calls = [] ∧
      (RunE w os fuel args).crawl = none ∧
      (RunE w os fuel args).outcome = .returned (some ("error: " ++ msg)) := by
  match args, h with
  | [], _ => exact ⟨_, rfl, rfl, rfl, rfl⟩
  | [_], _ => exact ⟨_, rfl, rfl, rfl, rfl⟩
  | a :: d :: rest, h =>
    rcases h with h | ⟨a1, rest1, he, hp⟩
    · simp only [List.length_cons] at h
      omega
    · have ha : a = a1 := by
        have := List.cons.inj he
        exact this.1
      subst ha
      refine ⟨"error: invalid start URL", ?_, ?_, ?_, ?_⟩ <;>
        simp [RunE, readAndValidateArgs, hp]

/-- Witness for C8: the one-argument call of the test and the start URL `::::`. -/
theorem readAndValidateArgs_rejects_before_effects_witness :
    (∃ msg : String,
      readAndValidateArgs worldS6 osFresh ["destination".toList] = ([], .returned (.error msg)) ∧
      (RunE worldS6 osFresh 3 ["destination".toList]).calls = [] ∧
      (RunE worldS6 osFresh 3 ["destination".toList]).crawl = none ∧
      (RunE worldS6 osFresh 3 ["destination".toList]).outcome
        = .returned (some ("error: " ++ msg))) ∧
    (∃ msg : String,
      readAndValidateArgs worldS6 osFresh ["::::".toList, "destination".toList]
        = ([], .returned (.error msg)) ∧
      (RunE worldS6 osFresh 3 ["::::".toList, "destination".toList]).calls = [] ∧
      (RunE worldS6 osFresh 3 ["::::".toList, "destination".toList]).crawl = none ∧
      (RunE worldS6 osFresh 3 ["::::".toList, "destination".toList]).outcome
        = .returned (some ("error: " ++ msg))) :=
  ⟨readAndValidateArgs_rejects_before_effects worldS6 osFresh 3 ["destination".toList]
      (Or.inl (by decide)),
   readAndValidateArgs_rejects_before_effects worldS6 osFresh 3
      ["::::".toList, "destination".toList]
      (Or.inr ⟨"::::".toList, ["destination".toList], rfl, by decide⟩)⟩

/-! ## The scope predicate -/

/-- C1: `isChildURL` accepts `u` exactly when `u` has the scheme and the host of the start
URL and a path that is the start path or begins with the start path followed by `/`;
the user, query and fragment fields of `u` do not affect the result. -/
theorem isChildURL_iff_scope (c : crawler) (u : URL) :
    (c.isChildURL u = true ↔
      u.Scheme = c.startURL.Scheme ∧ u.Host = c.startURL.Host ∧
        (u.Path = c.startURL.Path ∨ ∃ rest, u.Path = c.startURL.Path ++ "/".toList ++ rest)) ∧
    (∀ (opq rawPath query fragment rawFragment : GoString) (user : Option Userinfo)
        (omitHost forceQuery : Bool),
      c.isChildURL { u with Opaque := opq, User := user, RawPath := rawPath,
                            OmitHost := omitHost, ForceQuery := forceQuery, RawQuery := query,
                            Fragment := fragment, RawFragment := rawFragment }
        = c.isChildURL u) := by
  refine ⟨?_, fun _ _ _ _ _ _ _ _ => rfl⟩
  have hp : strings.HasPrefix u.Path (c.startURL.Path ++ "/".toList) = true ↔
      ∃ rest, u.Path = c.startURL.Path ++ "/".toList ++ rest := by
    unfold strings.HasPrefix
    rw [ List.isPrefixOf_iff_prefix]
    constructor
    · rintro ⟨t, ht⟩
      exact ⟨t, ht.symm⟩
    · rintro ⟨t, ht⟩
      exact ⟨t, ht.symm⟩
  unfold crawler.isChildURL
  by_cases hs : u.Scheme = c.startURL.Scheme
  · by_cases hh : u.Host = c.startURL.Host
    · simp only [hs, hh, bne_self_eq_false, Bool.or_self, Bool.false_eq_true, if_false,
        Bool.or_eq_true, beq_iff_eq, true_and]
      rw [← hs, ← hh] at *
      constructor
      · rintro (h | h)
        · exact Or.inr (hp.mp h)
        · exact Or.inl h
      · rintro (h | h)
        · exact Or.inr h
        · exact Or.inl (hp.mpr h)
    · simp [hs, hh]
  · simp [hs]

end WgetMirror
